import Mathlib

/-!
Verification development for the album-art fixer program
(source: album_art_fixer.py).

The program is shallowly embedded: Python strings are Lean `String`s or
`List Char`, network I/O is an oracle function passed as a parameter,
Python exceptions are an explicit error type propagated through `Except`,
and the filesystem effects relevant to the claims (temporary files,
directory trees) are explicit values.
-/

/-- Python exception outcomes that the program distinguishes.
`runtimeNoArt` is the RuntimeError "No suitable album art found" raised at
line 65; `indexError` is the IndexError raised by an out-of-bounds
subscript of the results array at line 56; `tagError` stands for any
other exception raised while processing one file (lookup network failure,
tag write failure, ...). -/
inductive PyErr where
  | runtimeNoArt
  | indexError
  | tagError
deriving DecidableEq

/-- Python `s.replace(old, new)` on character lists: scan left to right,
replace each non-overlapping occurrence of `p` by `q`, skip past the
replacement. `fuel` bounds the number of scan steps; with
`fuel = s.length` and `p` nonempty this is exactly Python's behavior
(each step consumes at least one character of `s`). -/
def pyReplaceAux (p q : List Char) : Nat → List Char → List Char
  | _, [] => []
  | 0, s => s
  | fuel+1, c :: rest =>
    if p.isPrefixOf (c :: rest) then
      q ++ pyReplaceAux p q fuel ((c :: rest).drop p.length)
    else
      c :: pyReplaceAux p q fuel rest

/-- Python `s.replace(old, new)` (faithful for nonempty `old`). -/
def pyReplace (p q s : List Char) : List Char :=
  pyReplaceAux p q s.length s

/-- The low-resolution token "100x100" appearing in iTunes artwork URLs
(line 58). -/
def pat100 : List Char := "100x100".toList

/-- The higher-resolution token "256x256" substituted at line 58. -/
def rep256 : List Char := "256x256".toList

/-- Python `s.split(sep)` for a single-character separator, on character
lists. `splitOnChar c s` never returns `[]`; on an empty input it returns
`[[]]`, like Python's `"".split(sep) == [""]`. -/
def splitOnChar (c : Char) : List Char → List (List Char)
  | [] => [[]]
  | x :: xs =>
    let r := splitOnChar c xs
    if x = c then [] :: r else (x :: r.headD []) :: r.tail

/-- `song_path.split(os.path.sep)[-1]` (line 77): the last path component
of a file path, with "/" as the path separator. -/
def baseName (p : String) : List Char :=
  (splitOnChar '/' p.toList).getLastD []

/-- `song_path.split(os.path.sep)[-1].split(".")[0]` (line 77): the search
title used as the catalog query. -/
def searchTitle (p : String) : String :=
  String.mk ((splitOnChar '.' (baseName p)).headD [])

/-- `os.path.join(a, b)` with "/" as the path separator. -/
def joinPath (a b : String) : String := a ++ "/" ++ b

/-- `file.lower().endswith(".mp3")` (line 89), the file filter of the
tree walker. -/
def isMp3Name (f : String) : Bool :=
  ".mp3".toList.isSuffixOf (f.toList.map Char.toLower)

/-- Whether path `p` lies inside directory `d` (prefix of the path
text); used to express "no file under the temporary directory remains". -/
def underDir (d p : String) : Bool :=
  d.toList.isPrefixOf p.toList

/-- Equality of `Except` outcomes is decidable (needed to evaluate the
model on concrete inputs). -/
instance {ε α : Type} [DecidableEq ε] [DecidableEq α] : DecidableEq (Except ε α) :=
  fun a b =>
    match a, b with
    | .ok x, .ok y =>
      if h : x = y then .isTrue (congrArg Except.ok h)
      else .isFalse (fun he => h (Except.ok.inj he))
    | .error x, .error y =>
      if h : x = y then .isTrue (congrArg Except.error h)
      else .isFalse (fun he => h (Except.error.inj he))
    | .ok _, .error _ => .isFalse (fun he => Except.noConfusion he)
    | .error _, .ok _ => .isFalse (fun he => Except.noConfusion he)

/-- One element of the parsed `results` array of the catalog response;
the program only reads the optional `artworkUrl100` string field
(lines 57-58). URLs are character lists. -/
structure ITunesResult where
  artworkUrl100 : Option (List Char)
deriving DecidableEq

/-- The parsed catalog response: integer field `resultCount` and array
field `results` (lines 55-56). Nothing ties the two together; the code
trusts `resultCount` when indexing `results`. -/
structure ITunesResponse where
  resultCount : Nat
  results : List ITunesResult
deriving DecidableEq

/-- Outcome of `download_album_art_from_itunes`: the artwork URLs it
issued download GETs for, in order, and either the URL/body pair written
to the destination file or the exception raised. -/
structure LookupOutcome where
  requests : List (List Char)
  result : Except PyErr ((List Char) × List Nat)
deriving DecidableEq

/-- The loop `for res_i in range(0, data["resultCount"])` of lines 55-64.
`dl` is the network oracle: for a URL it yields the HTTP status and the
body bytes. The first argument is the current index `res_i`, the second
the number of remaining iterations. Out-of-range subscripts of `results`
raise IndexError; a download with status 200 writes the body and
returns; any other status falls through to the next iteration; an
exhausted loop raises RuntimeError (line 65). -/
def artLoop (dl : List Char → Nat × List Nat) (results : List ITunesResult) :
    Nat → Nat → LookupOutcome
  | _, 0 => ⟨[], .error .runtimeNoArt⟩
  | i, count+1 =>
    match results[i]? with
    | none => ⟨[], .error .indexError⟩
    | some r =>
      match r.artworkUrl100 with
      | none => artLoop dl results (i+1) count
      | some a =>
        let u := pyReplace pat100 rep256 a
        match dl u with
        | (status, body) =>
          if status = 200 then ⟨[u], .ok (u, body)⟩
          else
            let rest := artLoop dl results (i+1) count
            ⟨u :: rest.requests, rest.result⟩

/-- `download_album_art_from_itunes` (lines 45-65) after the response has
been received and parsed: iterate the results, resolve the first
workable artwork URL (with the 100x100 token replaced by 256x256) and
download it to the destination. -/
def download_album_art_from_itunes (dl : List Char → Nat × List Nat)
    (resp : ITunesResponse) : LookupOutcome :=
  artLoop dl resp.results 0 resp.resultCount

/-- A mutagen APIC cover-art frame as constructed at lines 33-41:
`encoding=3` is UTF-8, `type=3` is "front cover". -/
structure APICFrame where
  encoding : Nat
  mime : String
  picType : Nat
  desc : String
  data : List Nat
deriving DecidableEq

/-- A mutagen ID3 container: an association list from frame hash keys to
frames. For APIC frames the hash key is "APIC:" followed by the
description, so `tags.add` replaces an existing frame with the same
description and appends otherwise (dict semantics). -/
abbrev ID3Tags := List (String × APICFrame)

/-- `audio.tags.add(frame)` for an APIC frame: upsert keyed on
"APIC:" ++ desc. -/
def tagsAdd (tags : ID3Tags) (f : APICFrame) : ID3Tags :=
  let key := "APIC:" ++ f.desc
  if tags.any (fun kv => kv.1 == key) then
    tags.map (fun kv => if kv.1 == key then (key, f) else kv)
  else
    tags ++ [(key, f)]

/-- The metadata container of one MP3 file as loaded by
`MP3(mp3_file_path, ID3=ID3)`: `tags = none` models a file with no ID3
tag structure. -/
structure AudioFile where
  tags : Option ID3Tags
deriving DecidableEq

/-- `set_album_art_in_audio_file` (lines 22-42): `audio.add_tags()`
creates an empty tag structure when none exists and raises when one
already does — the exception is swallowed (lines 27-30); then an APIC
frame with encoding 3 (UTF-8), MIME "image/jpeg", type 3 (front cover),
description "Cover" and the image bytes is added and the container is
saved. -/
def set_album_art_in_audio_file (audio : AudioFile) (imgData : List Nat) :
    AudioFile :=
  let tags0 : ID3Tags :=
    match audio.tags with
    | none => []
    | some t => t
  ⟨some (tagsAdd tags0 ⟨3, "image/jpeg", 3, "Cover", imgData⟩)⟩

/-- Outcome of one `find_and_set_new_album_art` call: the exception
propagated to the caller (if any), the audio file's container
afterwards, and the files that remain in temporary storage after the
`with tempfile.TemporaryDirectory()` block has exited. -/
structure FileProcOutcome where
  result : Except PyErr Unit
  audioAfter : AudioFile
  tempFiles : List String
deriving DecidableEq

/-- `find_and_set_new_album_art` (lines 76-81). `dl`/`resp` drive the
lookup-and-download stage; `tagW` is the outcome of the tag-write stage
(the save can fail for reasons outside this pure model, e.g. a malformed
audio file); `audio` is the file's container before the call. The
destination image path is the search title with spaces replaced by
underscores plus ".jpg", inside the temporary directory. On exit of the
`with` block the temporary directory and its contents are deleted
unconditionally (Python `TemporaryDirectory` semantics), modelled by
filtering out every path under `tempDir`. -/
def find_and_set_new_album_art (dl : List Char → Nat × List Nat)
    (resp : ITunesResponse) (tagW : Except PyErr Unit) (audio : AudioFile)
    (tempDir songPath : String) : FileProcOutcome :=
  let title := searchTitle songPath
  let artPath :=
    joinPath tempDir ((title.map (fun c => if c = ' ' then '_' else c)) ++ ".jpg")
  let cleanup := fun (fs : List String) => fs.filter (fun p => !(underDir tempDir p))
  match (download_album_art_from_itunes dl resp).result with
  | .error e => ⟨.error e, audio, cleanup []⟩
  | .ok (_, bs) =>
    match tagW with
    | .error e => ⟨.error e, audio, cleanup [artPath]⟩
    | .ok _ => ⟨.ok (), set_album_art_in_audio_file audio bs, cleanup [artPath]⟩

/-- `process_single_file` (lines 68-73): run the per-file pipeline; on
any exception log the file path with the error and re-raise. The
pipeline itself is abstracted by `env`, the per-file outcome oracle
(the composition of lookup, fetch and tag write for that path). Returns
the propagated outcome and the log records emitted. -/
def process_single_file (env : String → Except PyErr Unit) (p : String) :
    Except PyErr Unit × List (String × PyErr) :=
  match env p with
  | .ok _ => (.ok (), [])
  | .error e => (.error e, [(p, e)])

/-- What one directory level of `process_mp3_files` (lines 87-96)
produces: the paths dispatched as tasks (files whose lowercased name
ends in ".mp3"), the gathered per-task outcomes
(`asyncio.gather(..., return_exceptions=True)` turns exceptions into
values, so nothing propagates), the log records, and the entries
appended to the failure list — the code zips the unfiltered `files`
listing against `results` and ignores the result values (line 95). -/
structure LevelOutcome where
  dispatched : List String
  results : List (Except PyErr Unit)
  logs : List (String × PyErr)
  failures : List String
deriving DecidableEq

/-- One directory level of `process_mp3_files` (lines 87-96). -/
def processLevel (env : String → Except PyErr Unit) (root : String)
    (files : List String) : LevelOutcome :=
  let dispatched := (files.filter isMp3Name).map (joinPath root)
  let runs := dispatched.map (process_single_file env)
  let results := runs.map Prod.fst
  let logs := runs.flatMap Prod.snd
  let failures := (files.zip results).map (fun x => joinPath root x.1)
  ⟨dispatched, results, logs, failures⟩

/-- A directory tree: the regular files and the named subdirectories of
each directory. -/
inductive DirTree where
  | node (files : List String) (subdirs : List (String × DirTree))

/-- The files of the root of a tree. -/
def DirTree.filesOf : DirTree → List String
  | .node fs _ => fs

/-- The subdirectories of the root of a tree. -/
def DirTree.subdirsOf : DirTree → List (String × DirTree)
  | .node _ subs => subs

/-- One triple yielded by `os.walk`: the directory path, its
subdirectories (name and subtree) and its files. -/
structure WalkEntry where
  root : String
  dirs : List (String × DirTree)
  files : List String

/-- Python `os.walk(path)` (top-down): yields an entry for `path` and
then recursively for every descendant directory, in order. `fuel`
bounds the tree depth; any `fuel` larger than the height of `t` gives
exactly `os.walk`. -/
def osWalk : Nat → String → DirTree → List WalkEntry
  | 0, _, _ => []
  | fuel+1, path, t =>
    ⟨path, t.subdirsOf, t.filesOf⟩ ::
      t.subdirsOf.flatMap (fun x => osWalk fuel (joinPath path x.1) x.2)

/-- What one `process_mp3_files` call produces: every directory path a
walk entry was processed for (in order), every file path dispatched as a
task (in order), and the returned failure list. -/
structure RunOutcome where
  visits : List String
  attempts : List String
  failures : List String
deriving DecidableEq

/-- `process_mp3_files` (lines 84-99): for every `os.walk` entry of
`dirPath` — note that `os.walk` already enumerates the whole subtree —
dispatch the level's matching files, extend the failure list with the
zip of the unfiltered listing against the gathered results, and then
additionally recurse into each of the entry's subdirectories. `fuel`
bounds the recursion depth; any value larger than the height of `t`
gives exactly the code's behavior. -/
def process_mp3_files (env : String → Except PyErr Unit) :
    Nat → String → DirTree → RunOutcome
  | 0, _, _ => ⟨[], [], []⟩
  | fuel+1, dirPath, t =>
    let parts := (osWalk (fuel+1) dirPath t).map (fun e =>
      let lv := processLevel env e.root e.files
      let recs := e.dirs.map (fun x =>
        process_mp3_files env fuel (joinPath e.root x.1) x.2)
      RunOutcome.mk (e.root :: recs.flatMap RunOutcome.visits)
        (lv.dispatched ++ recs.flatMap RunOutcome.attempts)
        (lv.failures ++ recs.flatMap RunOutcome.failures))
    ⟨parts.flatMap RunOutcome.visits, parts.flatMap RunOutcome.attempts,
      parts.flatMap RunOutcome.failures⟩

/-- The claim's reading of "base name with its extension removed"
(spec glossary), for comparison with what the code computes: the text
before the last dot when the name contains a dot, the whole name
otherwise. -/
def stripExtSpec (b : List Char) : List Char :=
  if '.' ∈ b then ((b.reverse.dropWhile (· != '.')).drop 1).reverse else b

/-- An occurrence of `p` inside `a ++ b` lies inside `a`, inside `b`, or
spans the boundary, splitting `p` into a nonempty suffix-of-`a` part and
a nonempty prefix-of-`b` part. -/
theorem infix_append_split {α : Type} {p a b : List α} (h : p <:+: a ++ b) :
    p <:+: a ∨ p <:+: b ∨
      ∃ p1 p2, p = p1 ++ p2 ∧ p1 ≠ [] ∧ p2 ≠ [] ∧ p1 <:+ a ∧ p2 <+: b := by
  obtain ⟨u, v, huv⟩ := h
  rcases le_or_lt (u.length + p.length) a.length with hle | hgt
  · left
    have hu : u.length ≤ a.length := by omega
    have ha : a = List.take a.length ((u ++ p) ++ v) := by
      rw [huv, List.take_left]
    rw [List.take_append_eq_append_take, List.take_append_eq_append_take] at ha
    rw [List.take_of_length_le hu,
      List.take_of_length_le (by omega : p.length ≤ a.length - u.length)] at ha
    exact ⟨u, List.take (a.length - (u ++ p).length) v, ha.symm⟩
  · rcases le_or_lt a.length u.length with hau | hua
    · right; left
      have hb : b = List.drop a.length ((u ++ p) ++ v) := by
        rw [huv, List.drop_left]
      rw [List.drop_append_eq_append_drop, List.drop_append_eq_append_drop] at hb
      have e1 : a.length - u.length = 0 := by omega
      have e2 : a.length - (u ++ p).length = 0 := by
        rw [List.length_append]; omega
      rw [e1, e2, List.drop_zero, List.drop_zero] at hb
      exact ⟨u.drop a.length, v, hb.symm⟩
    · right; right
      refine ⟨p.take (a.length - u.length), p.drop (a.length - u.length),
        (List.take_append_drop _ p).symm, ?_, ?_, ?_, ?_⟩
      · intro hnil
        have hl := congrArg List.length hnil
        rw [List.length_take] at hl
        simp only [List.length_nil] at hl
        omega
      · intro hnil
        have hl := congrArg List.length hnil
        rw [List.length_drop] at hl
        simp only [List.length_nil] at hl
        omega
      · have ha : a = List.take a.length (u ++ (p ++ v)) := by
          rw [← List.append_assoc, huv, List.take_left]
        rw [List.take_append_eq_append_take, List.take_of_length_le (by omega),
          List.take_append_eq_append_take,
          (by omega : a.length - u.length - p.length = 0), List.take_zero,
          List.append_nil] at ha
        exact ⟨u, ha.symm⟩
      · have hb : b = List.drop a.length (u ++ (p ++ v)) := by
          rw [← List.append_assoc, huv, List.drop_left]
        rw [List.drop_append_eq_append_drop,
          List.drop_eq_nil_of_le (by omega : u.length ≤ a.length),
          List.nil_append, List.drop_append_eq_append_drop,
          (by omega : a.length - u.length - p.length = 0), List.drop_zero] at hb
        exact ⟨v, hb.symm⟩

/-- A nonempty suffix of "100x100" that is a prefix of the replaced
string was already a prefix of the input: the replacement text "256x256"
starts with '2', which no suffix of the pattern starts with, so no
pattern occurrence can begin inside a replaced block. -/
theorem suffix_pat_prefix_pyReplaceAux :
    ∀ (fuel : Nat) (s q : List Char), s.length ≤ fuel → q ≠ [] →
      q <:+ pat100 → q <+: pyReplaceAux pat100 rep256 fuel s → q <+: s := by
  intro fuel
  induction fuel with
  | zero =>
    intro s q hs hq hsuf hpre
    have : s = [] := List.length_eq_zero.mp (Nat.le_zero.mp hs)
    subst this
    simp [pyReplaceAux] at hpre
    exact absurd hpre hq
  | succ fuel ih =>
    intro s q hs hq hsuf hpre
    match s with
    | [] =>
      simp [pyReplaceAux] at hpre
      exact absurd hpre hq
    | c :: rest =>
      by_cases hp : pat100.isPrefixOf (c :: rest)
      · rw [pyReplaceAux, if_pos hp] at hpre
        have hlen : q.length ≤ rep256.length := by
          have h1 : q.length ≤ pat100.length := hsuf.length_le
          have h2 : pat100.length = rep256.length := by decide
          omega
        have hq2 : q <+: rep256 :=
          List.prefix_of_prefix_length_le hpre (List.prefix_append _ _) hlen
        obtain ⟨c0, q', rfl⟩ := List.exists_cons_of_ne_nil hq
        rw [show rep256 = '2' :: "56x256".toList from rfl,
          List.cons_prefix_cons] at hq2
        have hmem : c0 ∈ pat100 := hsuf.subset (List.mem_cons_self c0 q')
        rw [hq2.1] at hmem
        exact absurd hmem (by decide)
      · rw [pyReplaceAux, if_neg hp] at hpre
        obtain ⟨c0, q', rfl⟩ := List.exists_cons_of_ne_nil hq
        rw [List.cons_prefix_cons] at hpre
        obtain ⟨rfl, hpre'⟩ := hpre
        by_cases hq' : q' = []
        · subst hq'
          exact List.cons_prefix_cons.mpr ⟨rfl, List.nil_prefix⟩
        · have hsuf' : q' <:+ pat100 := by
            obtain ⟨w, hw⟩ := hsuf
            exact ⟨w ++ [c0], by rw [List.append_assoc]; exact hw⟩
          have hrest : rest.length ≤ fuel := by
            simp only [List.length_cons] at hs
            omega
          exact List.cons_prefix_cons.mpr
            ⟨rfl, ih rest q' hrest hq' hsuf' hpre'⟩

/-- After Python's `replace("100x100", "256x256")`, the string contains
no occurrence of "100x100": the replacement text shares no boundary
characters with the pattern, and any occurrence inside untouched text
would have been found by the left-to-right scan. -/
theorem pat100_not_infix_pyReplaceAux :
    ∀ (fuel : Nat) (s : List Char), s.length ≤ fuel →
      ¬ pat100 <:+: pyReplaceAux pat100 rep256 fuel s := by
  intro fuel
  induction fuel with
  | zero =>
    intro s hs hinf
    have : s = [] := List.length_eq_zero.mp (Nat.le_zero.mp hs)
    subst this
    simp [pyReplaceAux] at hinf
    exact absurd hinf (by decide)
  | succ fuel ih =>
    intro s hs hinf
    match s with
    | [] =>
      simp [pyReplaceAux] at hinf
      exact absurd hinf (by decide)
    | c :: rest =>
      by_cases hp : pat100.isPrefixOf (c :: rest)
      · rw [pyReplaceAux, if_pos hp] at hinf
        rcases infix_append_split hinf with h | h | ⟨p1, p2, hsplit, hp1, hp2, hp1s, hp2p⟩
        · exact absurd h (by decide)
        · have hlen : ((c :: rest).drop pat100.length).length ≤ fuel := by
            have hpat : pat100.length = 7 := by decide
            simp only [List.length_drop, List.length_cons] at *
            omega
          exact ih _ hlen h
        · have hpre : p1 <+: pat100 := ⟨p2, hsplit.symm⟩
          obtain ⟨d, p1', rfl⟩ := List.exists_cons_of_ne_nil hp1
          rw [show pat100 = '1' :: "00x100".toList from rfl,
            List.cons_prefix_cons] at hpre
          have hmem : d ∈ rep256 := hp1s.subset (List.mem_cons_self d p1')
          rw [hpre.1] at hmem
          exact absurd hmem (by decide)
      · rw [pyReplaceAux, if_neg hp] at hinf
        rcases List.infix_cons_iff.mp hinf with hpre | hinf'
        · rw [show pat100 = '1' :: "00x100".toList from rfl,
            List.cons_prefix_cons] at hpre
          obtain ⟨hc, htail⟩ := hpre
          have hrest : rest.length ≤ fuel := by
            simp only [List.length_cons] at hs
            omega
          have h00 : "00x100".toList <+: rest :=
            suffix_pat_prefix_pyReplaceAux fuel rest "00x100".toList hrest
              (by decide) (by decide) htail
          have : pat100.isPrefixOf (c :: rest) := by
            apply List.isPrefixOf_iff_prefix.mpr
            rw [show pat100 = '1' :: "00x100".toList from rfl]
            exact List.cons_prefix_cons.mpr ⟨hc, h00⟩
          exact absurd this hp
        · have hrest : rest.length ≤ fuel := by
            simp only [List.length_cons] at hs
            omega
          exact ih rest hrest hinf'

/-- If the input contained "100x100" then the replaced string contains
"256x256". -/
theorem rep256_infix_pyReplaceAux :
    ∀ (fuel : Nat) (s : List Char), s.length ≤ fuel → pat100 <:+: s →
      rep256 <:+: pyReplaceAux pat100 rep256 fuel s := by
  intro fuel
  induction fuel with
  | zero =>
    intro s hs hinf
    have : s = [] := List.length_eq_zero.mp (Nat.le_zero.mp hs)
    subst this
    exact absurd (List.infix_nil.mp hinf) (by decide)
  | succ fuel ih =>
    intro s hs hinf
    match s with
    | [] => exact absurd (List.infix_nil.mp hinf) (by decide)
    | c :: rest =>
      by_cases hp : pat100.isPrefixOf (c :: rest)
      · rw [pyReplaceAux, if_pos hp]
        exact ⟨[], pyReplaceAux pat100 rep256 fuel ((c :: rest).drop pat100.length),
          rfl⟩
      · rw [pyReplaceAux, if_neg hp]
        rcases List.infix_cons_iff.mp hinf with hpre | hinf'
        · exact absurd ( List.isPrefixOf_iff_prefix.mpr hpre) hp
        · have hrest : rest.length ≤ fuel := by
            simp only [List.length_cons] at hs
            omega
          exact List.infix_cons (ih rest hrest hinf')

/-- `pyReplace pat100 rep256` output never contains "100x100". -/
theorem pat100_not_infix_pyReplace (s : List Char) :
    ¬ pat100 <:+: pyReplace pat100 rep256 s :=
  pat100_not_infix_pyReplaceAux s.length s (Nat.le_refl _)

/-- `pyReplace pat100 rep256` output contains "256x256" whenever the
input contained "100x100". -/
theorem rep256_infix_pyReplace (s : List Char) (h : pat100 <:+: s) :
    rep256 <:+: pyReplace pat100 rep256 s :=
  rep256_infix_pyReplaceAux s.length s (Nat.le_refl _) h

/-- Every download URL the lookup loop issues is some result's artwork
URL with the 100x100 token substituted by 256x256. -/
theorem artLoop_requests_from_results (dl : List Char → Nat × List Nat)
    (results : List ITunesResult) :
    ∀ (count i : Nat) (u : List Char),
      u ∈ (artLoop dl results i count).requests →
      ∃ r ∈ results, ∃ a, r.artworkUrl100 = some a ∧
        u = pyReplace pat100 rep256 a := by
  intro count
  induction count with
  | zero => intro i u hu; simp [artLoop] at hu
  | succ count ih =>
    intro i u hu
    simp only [artLoop] at hu
    cases hres : results[i]? with
    | none => simp only [hres] at hu; simp at hu
    | some r =>
      simp only [hres] at hu
      have hrmem : r ∈ results := List.getElem?_mem hres
      cases hart : r.artworkUrl100 with
      | none =>
        simp only [hart] at hu
        exact ih (i+1) u hu
      | some a =>
        simp only [hart] at hu
        by_cases hst : (dl (pyReplace pat100 rep256 a)).1 = 200
        · rw [if_pos hst] at hu
          simp only [List.mem_singleton] at hu
          exact ⟨r, hrmem, a, hart, hu⟩
        · rw [if_neg hst] at hu
          simp only [List.mem_cons] at hu
          rcases hu with rfl | hu
          · exact ⟨r, hrmem, a, hart, rfl⟩
          · exact ih (i+1) u hu

/-- When every result lacks the artwork URL field and the loop bound is
within the array, the loop issues no download and raises the
"no suitable album art" RuntimeError. -/
theorem artLoop_all_none (dl : List Char → Nat × List Nat)
    (results : List ITunesResult)
    (hall : ∀ r ∈ results, r.artworkUrl100 = none) :
    ∀ (count i : Nat), i + count ≤ results.length →
      artLoop dl results i count = ⟨[], .error .runtimeNoArt⟩ := by
  intro count
  induction count with
  | zero => intro i _; rfl
  | succ count ih =>
    intro i hle
    have hi : i < results.length := by omega
    have hres : results[i]? = some results[i] := List.getElem?_eq_getElem hi
    have hart : results[i].artworkUrl100 = none := hall _ (List.getElem_mem hi)
    simp only [artLoop, hres, hart]
    exact ih (i+1) (by omega)

/-- As long as the loop bound stays within the results array, the loop
never raises IndexError. -/
theorem artLoop_inbounds (dl : List Char → Nat × List Nat)
    (results : List ITunesResult) :
    ∀ (count i : Nat), i + count ≤ results.length →
      (artLoop dl results i count).result ≠ .error .indexError := by
  intro count
  induction count with
  | zero => intro i _ h; simp [artLoop] at h
  | succ count ih =>
    intro i hle h
    have hi : i < results.length := by omega
    have hres : results[i]? = some results[i] := List.getElem?_eq_getElem hi
    simp only [artLoop, hres] at h
    cases hart : results[i].artworkUrl100 with
    | none =>
      rw [hart] at h
      exact ih (i+1) (by omega) h
    | some a =>
      simp only [hart] at h
      by_cases hst : (dl (pyReplace pat100 rep256 a)).1 = 200
      · rw [if_pos hst] at h
        simp at h
      · rw [if_neg hst] at h
        exact ih (i+1) (by omega) h

/-- When the loop bound overruns the results array and no in-range
result bears an artwork URL, the subscript at index `results.length`
raises IndexError. -/
theorem artLoop_overrun (dl : List Char → Nat × List Nat)
    (results : List ITunesResult)
    (hall : ∀ r ∈ results, r.artworkUrl100 = none) :
    ∀ (count i : Nat), i ≤ results.length → results.length < i + count →
      (artLoop dl results i count).result = .error .indexError := by
  intro count
  induction count with
  | zero => intro i hle hgt; omega
  | succ count ih =>
    intro i hle hgt
    by_cases hi : i < results.length
    · have hres : results[i]? = some results[i] := List.getElem?_eq_getElem hi
      have hart : results[i].artworkUrl100 = none := hall _ (List.getElem_mem hi)
      simp only [artLoop, hres, hart]
      exact ih (i+1) (by omega) (by omega)
    · have hres : results[i]? = none := List.getElem?_eq_none (by omega)
      simp only [artLoop, hres]

/-- Full characterization of the candidate loop on an in-bounds range:
it issues download requests for the substituted artwork URLs of the
artwork-bearing results in order, up to and including the first whose
download answers status 200; it succeeds with that first 200 URL and
its body, and raises the no-artwork RuntimeError exactly when every
candidate's download fails. -/
theorem artLoop_characterization (dl : List Char → Nat × List Nat)
    (results : List ITunesResult) :
    ∀ (count i : Nat), i + count ≤ results.length →
      artLoop dl results i count =
        ⟨((((results.drop i).take count).filterMap
              ITunesResult.artworkUrl100).map
              (pyReplace pat100 rep256)).takeWhile
            (fun u => !((dl u).1 == 200)) ++
          (((((results.drop i).take count).filterMap
              ITunesResult.artworkUrl100).map
              (pyReplace pat100 rep256)).dropWhile
            (fun u => !((dl u).1 == 200))).take 1,
          match ((((results.drop i).take count).filterMap
              ITunesResult.artworkUrl100).map
              (pyReplace pat100 rep256)).dropWhile
            (fun u => !((dl u).1 == 200)) with
          | [] => .error .runtimeNoArt
          | u :: _ => .ok (u, (dl u).2)⟩ := by
  intro count
  induction count with
  | zero =>
    intro i _
    simp [artLoop]
  | succ count ih =>
    intro i hle
    have hi : i < results.length := by omega
    have hres : results[i]? = some results[i] := List.getElem?_eq_getElem hi
    rw [List.drop_eq_getElem_cons hi, List.take_succ_cons]
    cases hart : results[i].artworkUrl100 with
    | none =>
      rw [List.filterMap_cons_none hart]
      simp only [artLoop, hres, hart]
      exact ih (i+1) (by omega)
    | some a =>
      rw [List.filterMap_cons_some hart, List.map_cons]
      simp only [artLoop, hres, hart]
      by_cases hst : (dl (pyReplace pat100 rep256 a)).1 = 200
      · rw [if_pos hst, List.takeWhile_cons, List.dropWhile_cons]
        have hb : (!((dl (pyReplace pat100 rep256 a)).1 == 200)) = false := by
          simp [hst]
        rw [hb]
        simp
      · rw [if_neg hst, List.takeWhile_cons, List.dropWhile_cons]
        have hb : (!((dl (pyReplace pat100 rep256 a)).1 == 200)) = true := by
          simp [hst]
        rw [hb, ih (i+1) (by omega)]
        simp

/-- The head of Python's `split(sep)` is the run of characters before
the first separator. -/
theorem headD_splitOnChar (c : Char) :
    ∀ s : List Char, (splitOnChar c s).headD [] = s.takeWhile (· != c) := by
  intro s
  induction s with
  | nil => rfl
  | cons x xs ih =>
    by_cases h : x = c
    · simp [splitOnChar, h, List.takeWhile_cons]
    · rw [List.headD_eq_head?] at ih
      simp [splitOnChar, h, List.takeWhile_cons, ih]

/-- `takeWhile (· != c)` keeps a list free of `c` intact. -/
theorem takeWhile_ne_of_not_mem (c : Char) :
    ∀ l : List Char, c ∉ l → l.takeWhile (· != c) = l := by
  intro l
  induction l with
  | nil => intro _; rfl
  | cons x xs ih =>
    intro hmem
    have hx : x ≠ c := fun h => hmem (h ▸ List.mem_cons_self x xs)
    have hxs : c ∉ xs := fun h => hmem (List.mem_cons_of_mem x h)
    simp [List.takeWhile_cons, hx, ih hxs]

/-- `takeWhile (· != c)` over a list whose first `c` starts the suffix
`c :: y` returns exactly the prefix before it. -/
theorem takeWhile_ne_append (c : Char) (y : List Char) :
    ∀ x : List Char, c ∉ x → (x ++ c :: y).takeWhile (· != c) = x := by
  intro x
  induction x with
  | nil => intro _; simp [List.takeWhile_cons]
  | cons a xs ih =>
    intro hmem
    have ha : a ≠ c := fun h => hmem (h ▸ List.mem_cons_self a xs)
    have hxs : c ∉ xs := fun h => hmem (List.mem_cons_of_mem a h)
    simp [List.takeWhile_cons, ha, ih hxs]

/-- `dropWhile (· != c)` over a list whose first `c` starts the suffix
`c :: m` drops exactly the prefix before it. -/
theorem dropWhile_ne_append (c : Char) (m : List Char) :
    ∀ l : List Char, c ∉ l → (l ++ c :: m).dropWhile (· != c) = c :: m := by
  intro l
  induction l with
  | nil => intro _; simp [List.dropWhile_cons]
  | cons a xs ih =>
    intro hmem
    have ha : a ≠ c := fun h => hmem (h ▸ List.mem_cons_self a xs)
    have hxs : c ∉ xs := fun h => hmem (List.mem_cons_of_mem a h)
    simp [List.dropWhile_cons, ha, ih hxs]

/-- For a name with at most one dot, truncation at the first dot agrees
with removing the extension (the text after the last dot). -/
theorem takeWhile_eq_stripExtSpec (b : List Char) (hb : b.count '.' ≤ 1) :
    b.takeWhile (· != '.') = stripExtSpec b := by
  by_cases hmem : '.' ∈ b
  · obtain ⟨x, y, rfl⟩ := List.mem_iff_append.mp hmem
    have hcount : x.count '.' = 0 ∧ y.count '.' = 0 := by
      rw [List.count_append, List.count_cons] at hb
      simp only [beq_self_eq_true, if_pos] at hb
      constructor <;> omega
    have hx : '.' ∉ x := List.count_eq_zero.mp hcount.1
    have hy : '.' ∉ y := List.count_eq_zero.mp hcount.2
    rw [takeWhile_ne_append '.' y x hx]
    rw [stripExtSpec, if_pos hmem]
    rw [List.reverse_append, List.reverse_cons, List.append_assoc,
      List.singleton_append]
    rw [dropWhile_ne_append '.' x.reverse y.reverse (by simpa using hy)]
    simp
  · rw [takeWhile_ne_of_not_mem '.' b hmem, stripExtSpec, if_neg hmem]

/-- `process_single_file` propagates exactly the pipeline's outcome:
re-raised on failure, unchanged on success. -/
theorem process_single_file_fst (env : String → Except PyErr Unit) (p : String) :
    (process_single_file env p).1 = env p := by
  cases h : env p with
  | ok a => cases a; simp [process_single_file, h]
  | error e => simp [process_single_file, h]

/-- Everything that survives a filter satisfies the filter's predicate. -/
theorem filter_all_self {α : Type} (l : List α) (p : α → Bool) :
    (l.filter p).all p = true :=
  List.all_eq_true.mpr (fun _ hx => List.of_mem_filter hx)

/-- A path joined under a directory lies under that directory. -/
theorem underDir_joinPath (d s : String) : underDir d (joinPath d s) = true := by
  unfold underDir joinPath
  apply List.isPrefixOf_iff_prefix.mpr
  have h : (d ++ "/" ++ s).toList = d.toList ++ ("/".toList ++ s.toList) := by
    show (d ++ "/" ++ s).data = d.data ++ ("/".data ++ s.data)
    rw [String.data_append, String.data_append, List.append_assoc]
  rw [h]
  exact List.prefix_append _ _

/-- Claim C1: FALSIFIED (code bug). The walker is claimed to visit every
subdirectory exactly once, so that every matching file is attempted
exactly once per run. The code iterates `os.walk(dir_path)` — which
already yields every directory of the whole subtree — and additionally
recurses `process_mp3_files` into every subdirectory of every walk
entry, so subdirectories are processed repeatedly. On a root with one
subdirectory "a" holding "x.mp3" and every task succeeding, "root/a" is
visited twice, "root/a/x.mp3" is dispatched twice, and the failure list
is duplicated likewise. Stated for every recursion budget `k + 2`
(any fuel at least the tree height yields the code's value). -/
theorem claim_C1_walker_revisits (k : Nat) :
    process_mp3_files (fun _ => .ok ()) (k + 2) "root"
      (.node [] [("a", .node ["x.mp3"] [])]) =
    ⟨["root", "root/a", "root/a"],
     ["root/a/x.mp3", "root/a/x.mp3"],
     ["root/a/x.mp3", "root/a/x.mp3"]⟩ := rfl

/-- Claim C2: FALSIFIED (code bug). A level whose dispatched files all
succeed is claimed to report zero failures, every failure entry naming a
file that actually failed. The code zips the unfiltered `files` listing
against the gathered results and never inspects the result values
(line 95): for directory "root" with files ["b.txt", "a.mp3"] and every
task succeeding, the level reports failures ["root/b.txt"] — nonempty,
and naming a non-MP3 file that was never dispatched. -/
theorem claim_C2_failures_mislabelled :
    processLevel (fun _ => .ok ()) "root" ["b.txt", "a.mp3"] =
      ⟨["root/a.mp3"], [.ok ()], [], ["root/b.txt"]⟩ := by decide

/-- Claim C3: the claim as stated is false. With two results bearing
artwork URLs, the first download answering 404 and the second 200, the
code issues both download requests (the requests list has both URLs)
and succeeds with the second candidate's URL — so a non-200 status on
the first candidate does cause the next candidate URL to be tried. -/
theorem claim_C3_counterexample :
    download_album_art_from_itunes
      (fun u => if u = "b/256x256.jpg".toList then (200, [9]) else (404, []))
      ⟨2, [⟨some "a/100x100.jpg".toList⟩, ⟨some "b/100x100.jpg".toList⟩]⟩ =
    ⟨["a/256x256.jpg".toList, "b/256x256.jpg".toList],
      .ok ("b/256x256.jpg".toList, [9])⟩ := by decide

/-- Claim C3 (amended): for every catalog response whose result count is
within the results array (the documented interface; the overrun case is
claim C10's subject) and every download oracle, the lookup issues one
download request for each artwork-bearing candidate's substituted URL,
in result order, up to and including the first whose download answers
status 200 — so a non-200 status on one candidate causes the next
candidate URL to be tried; it succeeds with that first 200-answering
URL and its body, and raises the "no suitable album art" error exactly
when no candidate's download answers 200. It stops at the first
successful download, not at the first URL found. -/
theorem claim_C3_amended (dl : List Char → Nat × List Nat)
    (resp : ITunesResponse)
    (hwf : resp.resultCount ≤ resp.results.length) :
    download_album_art_from_itunes dl resp =
      ⟨(((resp.results.take resp.resultCount).filterMap
            ITunesResult.artworkUrl100).map
            (pyReplace pat100 rep256)).takeWhile
          (fun u => !((dl u).1 == 200)) ++
        ((((resp.results.take resp.resultCount).filterMap
            ITunesResult.artworkUrl100).map
            (pyReplace pat100 rep256)).dropWhile
          (fun u => !((dl u).1 == 200))).take 1,
        match (((resp.results.take resp.resultCount).filterMap
            ITunesResult.artworkUrl100).map
            (pyReplace pat100 rep256)).dropWhile
          (fun u => !((dl u).1 == 200)) with
        | [] => .error .runtimeNoArt
        | u :: _ => .ok (u, (dl u).2)⟩ := by
  unfold download_album_art_from_itunes
  rw [artLoop_characterization dl resp.results resp.resultCount 0 (by omega)]
  rw [List.drop_zero]

/-- Claim C3 (amended), witnessed at a concrete oracle and response:
two candidates, the first download answering 404 and the second 200;
the loop requests both URLs and succeeds with the second. -/
theorem claim_C3_witness :
    download_album_art_from_itunes
      (fun u => if u = "b/256x256.jpg".toList then (200, [9]) else (404, []))
      ⟨2, [⟨some "a/100x100.jpg".toList⟩, ⟨some "b/100x100.jpg".toList⟩]⟩ =
    ⟨[pyReplace pat100 rep256 "a/100x100.jpg".toList,
      pyReplace pat100 rep256 "b/100x100.jpg".toList],
      .ok (pyReplace pat100 rep256 "b/100x100.jpg".toList, [9])⟩ :=
  (claim_C3_amended
    (fun u => if u = "b/256x256.jpg".toList then (200, [9]) else (404, []))
    ⟨2, [⟨some "a/100x100.jpg".toList⟩, ⟨some "b/100x100.jpg".toList⟩]⟩
    (by decide)).trans (by decide)

/-- Claim C4: the claim as stated is false. For the path
"dir/my.song.mp3" the base name with its extension removed is
"my.song", but the code's query (`split(".")[0]`, line 77) is "my". -/
theorem claim_C4_counterexample :
    (searchTitle "dir/my.song.mp3").toList ≠
        stripExtSpec (baseName "dir/my.song.mp3") ∧
      searchTitle "dir/my.song.mp3" = "my" ∧
      stripExtSpec (baseName "dir/my.song.mp3") = "my.song".toList := by decide

/-- Claim C4 (amended): the search title equals the file's base name
truncated at its FIRST dot (all characters before the first '.'); this
coincides with "base name with its extension removed" exactly for base
names containing at most one dot. -/
theorem claim_C4_amended :
    (∀ p : String, (searchTitle p).toList = (baseName p).takeWhile (· != '.')) ∧
    (∀ b : List Char, b.count '.' ≤ 1 →
      b.takeWhile (· != '.') = stripExtSpec b) := by
  constructor
  · intro p
    exact headD_splitOnChar '.' (baseName p)
  · intro b hb
    exact takeWhile_eq_stripExtSpec b hb

/-- Claim C4 (amended), witnessed at concrete inputs: a multi-dot path
for the truncation part and a single-dot name for the agreement part. -/
theorem claim_C4_witness :
    (searchTitle "dir/my.song.mp3").toList =
        (baseName "dir/my.song.mp3").takeWhile (· != '.') ∧
      "song.mp3".toList.count '.' ≤ 1 ∧
      "song.mp3".toList.takeWhile (· != '.') = stripExtSpec "song.mp3".toList :=
  ⟨claim_C4_amended.1 _, by decide, claim_C4_amended.2 _ (by decide)⟩

/-- Claim C5: CONFIRMED. Starting from a container with no tag
structure, a successful File Processor run leaves exactly one cover-art
frame — key "APIC:Cover", UTF-8 text encoding (3), MIME "image/jpeg",
front-cover role (3), description "Cover" — whose data is the fetched
image bytes. -/
theorem claim_C5_single_cover_frame (dl : List Char → Nat × List Nat)
    (resp : ITunesResponse) (tagW : Except PyErr Unit)
    (tempDir songPath : String)
    (hok : (find_and_set_new_album_art dl resp tagW ⟨none⟩ tempDir songPath).result
      = .ok ()) :
    ∃ u bs, (download_album_art_from_itunes dl resp).result = .ok (u, bs) ∧
      (find_and_set_new_album_art dl resp tagW ⟨none⟩ tempDir songPath).audioAfter
        = ⟨some [("APIC:Cover", ⟨3, "image/jpeg", 3, "Cover", bs⟩)]⟩ := by
  rcases hdl : (download_album_art_from_itunes dl resp).result with e | p
  · simp only [find_and_set_new_album_art, hdl] at hok
    exact absurd hok (by simp)
  · rcases p with ⟨u, bs⟩
    rcases tagW with e | u'
    · simp only [find_and_set_new_album_art, hdl] at hok
      exact absurd hok (by simp)
    · refine ⟨u, bs, rfl, ?_⟩
      simp only [find_and_set_new_album_art, hdl]
      rfl

/-- Claim C5, witnessed at a concrete run for a file with no tag
structure: one result, one successful download of bytes [1, 2]. -/
theorem claim_C5_witness :
    (find_and_set_new_album_art (fun _ => (200, [1, 2]))
        ⟨1, [⟨some "q/100x100".toList⟩]⟩ (.ok ()) ⟨none⟩ "tmp" "r/song.mp3").result
      = .ok () ∧
    ∃ u bs,
      (download_album_art_from_itunes (fun _ => (200, [1, 2]))
        ⟨1, [⟨some "q/100x100".toList⟩]⟩).result = .ok (u, bs) ∧
      (find_and_set_new_album_art (fun _ => (200, [1, 2]))
        ⟨1, [⟨some "q/100x100".toList⟩]⟩ (.ok ()) ⟨none⟩ "tmp" "r/song.mp3").audioAfter
        = ⟨some [("APIC:Cover", ⟨3, "image/jpeg", 3, "Cover", bs⟩)]⟩ :=
  ⟨by decide, claim_C5_single_cover_frame _ _ _ _ _ (by decide)⟩

/-- Claim C6: the claim as stated is false. A response can hold a
result whose artwork URL path contains "100x100" while an earlier
result bears an artwork URL without that token: the lookup resolves the
earlier URL, downloads it successfully, and the downloaded URL carries
no "256x256" token. -/
theorem claim_C6_counterexample :
    (∃ r ∈ ([⟨some "http://a/art.jpg".toList⟩,
        ⟨some "http://b/100x100/b.jpg".toList⟩] : List ITunesResult),
      ∃ a, r.artworkUrl100 = some a ∧ pat100 <:+: a) ∧
    download_album_art_from_itunes (fun _ => (200, [5]))
      ⟨2, [⟨some "http://a/art.jpg".toList⟩,
        ⟨some "http://b/100x100/b.jpg".toList⟩]⟩ =
      ⟨["http://a/art.jpg".toList], .ok ("http://a/art.jpg".toList, [5])⟩ ∧
    ¬ (rep256 <:+: "http://a/art.jpg".toList) := by decide

/-- Claim C6 (amended): every URL the lookup downloads from is obtained
from some result's artwork URL by replacing every occurrence of
"100x100" with "256x256"; such a URL never contains "100x100", and it
contains "256x256" whenever the artwork URL it came from contained
"100x100". -/
theorem claim_C6_amended (dl : List Char → Nat × List Nat)
    (resp : ITunesResponse) (u : List Char)
    (hu : u ∈ (download_album_art_from_itunes dl resp).requests) :
    (¬ pat100 <:+: u) ∧
      ∃ r ∈ resp.results, ∃ a, r.artworkUrl100 = some a ∧
        u = pyReplace pat100 rep256 a ∧
        (pat100 <:+: a → rep256 <:+: u) := by
  unfold download_album_art_from_itunes at hu
  obtain ⟨r, hr, a, hart, rfl⟩ :=
    artLoop_requests_from_results dl resp.results resp.resultCount 0 u hu
  exact ⟨pat100_not_infix_pyReplace a, r, hr, a, hart, rfl,
    fun h => rep256_infix_pyReplace a h⟩

/-- Claim C6 (amended), witnessed at a concrete response whose single
artwork URL contains "100x100". -/
theorem claim_C6_witness :
    "q/256x256/z".toList ∈ (download_album_art_from_itunes (fun _ => (200, []))
        ⟨1, [⟨some "q/100x100/z".toList⟩]⟩).requests ∧
    ((¬ pat100 <:+: "q/256x256/z".toList) ∧
      ∃ r ∈ ([⟨some "q/100x100/z".toList⟩] : List ITunesResult),
        ∃ a, r.artworkUrl100 = some a ∧
          "q/256x256/z".toList = pyReplace pat100 rep256 a ∧
          (pat100 <:+: a → rep256 <:+: "q/256x256/z".toList)) :=
  ⟨by decide, claim_C6_amended (fun _ => (200, []))
    ⟨1, [⟨some "q/100x100/z".toList⟩]⟩ "q/256x256/z".toList (by decide)⟩

/-- Claim C7: CONFIRMED. For a catalog response whose result count is
within the results array and in which no result carries an artwork URL
field, the lookup raises the "no suitable album art found" RuntimeError
and issues no download request. -/
theorem claim_C7_no_artwork_no_download (dl : List Char → Nat × List Nat)
    (resp : ITunesResponse)
    (hwf : resp.resultCount ≤ resp.results.length)
    (hall : ∀ r ∈ resp.results, r.artworkUrl100 = none) :
    download_album_art_from_itunes dl resp = ⟨[], .error .runtimeNoArt⟩ := by
  unfold download_album_art_from_itunes
  exact artLoop_all_none dl resp.results hall resp.resultCount 0 (by omega)

/-- Claim C7, witnessed at a concrete artwork-free response. -/
theorem claim_C7_witness :
    download_album_art_from_itunes (fun _ => (200, []))
        ⟨2, [⟨none⟩, ⟨none⟩]⟩ = ⟨[], .error .runtimeNoArt⟩ :=
  claim_C7_no_artwork_no_download _ _ (by decide) (by decide)

/-- Claim C8: CONFIRMED. After `find_and_set_new_album_art` completes —
successfully or with any stage failing — no file under the scoped
temporary directory remains, and the artwork file (a path joined under
the temporary directory) is such a file. -/
theorem claim_C8_temp_cleanup (dl : List Char → Nat × List Nat)
    (resp : ITunesResponse) (tagW : Except PyErr Unit) (audio : AudioFile)
    (tempDir songPath : String) :
    ((find_and_set_new_album_art dl resp tagW audio tempDir songPath).tempFiles.all
      (fun p => !(underDir tempDir p)) = true) ∧
    (∀ d s : String, underDir d (joinPath d s) = true) := by
  refine ⟨?_, fun d s => underDir_joinPath d s⟩
  rcases hdl : (download_album_art_from_itunes dl resp).result with e | p
  · simp only [find_and_set_new_album_art, hdl]
    exact filter_all_self _ _
  · rcases p with ⟨u, bs⟩
    rcases tagW with e | u'
    · simp only [find_and_set_new_album_art, hdl]
      exact filter_all_self _ _
    · simp only [find_and_set_new_album_art, hdl]
      exact filter_all_self _ _

/-- Claim C9: CONFIRMED. When one dispatched file of a level fails and
its matching siblings succeed: every matching file is dispatched, the
gathered results are exactly the per-file outcomes (each failure
re-raised at the single-file boundary arrives as a value, so sibling
processing runs to completion and nothing propagates out of the
directory-level call, which returns a plain value), and the failing
path is logged with its exception. -/
theorem claim_C9_level_isolation (env : String → Except PyErr Unit)
    (root f : String) (fs : List String) (e : PyErr)
    (hf : f ∈ fs) (hmp3 : isMp3Name f = true)
    (hfail : env (joinPath root f) = .error e)
    (_hsib : ∀ g, g ∈ fs → isMp3Name g = true → g ≠ f →
      env (joinPath root g) = .ok ()) :
    (processLevel env root fs).dispatched =
        (fs.filter isMp3Name).map (joinPath root) ∧
      (processLevel env root fs).results =
        (processLevel env root fs).dispatched.map env ∧
      (joinPath root f, e) ∈ (processLevel env root fs).logs := by
  refine ⟨rfl, ?_, ?_⟩
  · show ((((fs.filter isMp3Name).map (joinPath root)).map
      (process_single_file env)).map Prod.fst) = _
    rw [List.map_map]
    exact List.map_congr_left (fun p _ => process_single_file_fst env p)
  · show (joinPath root f, e) ∈
      (((fs.filter isMp3Name).map (joinPath root)).map
        (process_single_file env)).flatMap Prod.snd
    apply List.mem_flatMap.mpr
    refine ⟨process_single_file env (joinPath root f), ?_, ?_⟩
    · exact List.mem_map_of_mem _
        (List.mem_map_of_mem _ (List.mem_filter.mpr ⟨hf, hmp3⟩))
    · simp [process_single_file, hfail]

/-- Claim C9, witnessed at a level with one failing and one succeeding
MP3 file. -/
theorem claim_C9_witness :
    (processLevel
        (fun p => if p = "r/x.mp3" then .error .tagError else .ok ())
        "r" ["x.mp3", "y.mp3"]).dispatched =
      (["x.mp3", "y.mp3"].filter isMp3Name).map (joinPath "r") ∧
    (processLevel
        (fun p => if p = "r/x.mp3" then .error .tagError else .ok ())
        "r" ["x.mp3", "y.mp3"]).results =
      (processLevel
        (fun p => if p = "r/x.mp3" then .error .tagError else .ok ())
        "r" ["x.mp3", "y.mp3"]).dispatched.map
        (fun p => if p = "r/x.mp3" then .error .tagError else .ok ()) ∧
    (joinPath "r" "x.mp3", PyErr.tagError) ∈
      (processLevel
        (fun p => if p = "r/x.mp3" then .error .tagError else .ok ())
        "r" ["x.mp3", "y.mp3"]).logs :=
  claim_C9_level_isolation _ "r" "x.mp3" ["x.mp3", "y.mp3"] .tagError
    (by decide) (by decide) (by decide) (by decide)

/-- Claim C10: CONFIRMED. The candidate iteration is bounded by
`resultCount` while subscripting `results`: when `resultCount` is at
most the array length the lookup never raises IndexError, and when
`resultCount` exceeds the array length (with no result bearing an
artwork URL, so that the loop would otherwise exhaust) the lookup
raises IndexError instead of the "no artwork found" RuntimeError. -/
theorem claim_C10_resultCount_bound :
    (∀ (dl : List Char → Nat × List Nat) (resp : ITunesResponse),
      resp.resultCount ≤ resp.results.length →
      (download_album_art_from_itunes dl resp).result ≠ .error .indexError) ∧
    (∀ (dl : List Char → Nat × List Nat) (resp : ITunesResponse),
      resp.results.length < resp.resultCount →
      (∀ r ∈ resp.results, r.artworkUrl100 = none) →
      (download_album_art_from_itunes dl resp).result = .error .indexError) := by
  constructor
  · intro dl resp h
    unfold download_album_art_from_itunes
    exact artLoop_inbounds dl resp.results resp.resultCount 0 (by omega)
  · intro dl resp h hall
    unfold download_album_art_from_itunes
    exact artLoop_overrun dl resp.results hall resp.resultCount 0 (by omega)
      (by omega)

/-- Claim C10, witnessed at concrete responses: a well-formed one and
one whose resultCount overruns a results array without artwork. -/
theorem claim_C10_witness :
    (download_album_art_from_itunes (fun _ => (200, []))
        ⟨1, [⟨none⟩]⟩).result ≠ .error .indexError ∧
    (download_album_art_from_itunes (fun _ => (200, []))
        ⟨2, [⟨none⟩]⟩).result = .error .indexError :=
  ⟨claim_C10_resultCount_bound.1 _ _ (by decide),
    claim_C10_resultCount_bound.2 _ _ (by decide) (by decide)⟩
